import Mathlib

/-!
Shallow embedding of `qPCR_Analysis.py` (ΔΔCt qPCR pipeline).

Python dicts are modelled as association lists (`List (α × β)`):
`lookup` returns the value at the first occurrence of a key, and `insertA`
overwrites the value in place at the first occurrence (keeping its position,
as a Python dict does) or appends a fresh entry at the end.  A genuine dict
never holds two entries with the same key; the predicate `NodupKeys` states
that invariant where a theorem needs it.  Ct values (Python floats) are
modelled as rationals; the fold-change stage `2 ** (-v)` is modelled with
real exponentiation.
-/

namespace QPCR

/-- `lookup m k` models Python `m[k]` / `m.get(k)`: the value at the first
entry whose key is `k`, if any. -/
def lookup {α β : Type} [DecidableEq α] : List (α × β) → α → Option β
  | [], _ => none
  | p :: rest, k => if p.1 = k then some p.2 else lookup rest k

/-- `insertA m k v` models Python `m[k] = v`: overwrite the first entry with
key `k` in place, or append `(k, v)` when the key is absent. -/
def insertA {α β : Type} [DecidableEq α] : List (α × β) → α → β → List (α × β)
  | [], k, v => [(k, v)]
  | p :: rest, k, v => if p.1 = k then (k, v) :: rest else p :: insertA rest k v

/-- The dict invariant: no two entries share a key. -/
def NodupKeys {α β : Type} (m : List (α × β)) : Prop := (m.map Prod.fst).Nodup

instance {α β : Type} [DecidableEq α] (m : List (α × β)) : Decidable (NodupKeys m) :=
  inferInstanceAs (Decidable (m.map Prod.fst).Nodup)

/-- One raw qPCR measurement (a parsed CSV row). -/
structure Reading where
  condition : String
  gene : String
  sample_id : String
  ct : ℚ
deriving DecidableEq

/-- A `(condition, gene)` aggregation key (also used as `(condition, sample_id)`
for the housekeeping index). -/
abbrev Key := String × String

/-- The loop body of `group_ct_values`: store `row.ct` under
`grouped[(condition, gene)][sample_id]`, creating the inner map on first use. -/
def group_step (grouped : List (Key × List (String × ℚ))) (row : Reading) :
    List (Key × List (String × ℚ)) :=
  let key : Key := (row.condition, row.gene)
  insertA grouped key (insertA ((lookup grouped key).getD []) row.sample_id row.ct)

/-- `group_ct_values`: group Ct values by `(condition, gene)`, then by
`sample_id`, in input order (later duplicates overwrite). -/
def group_ct_values (data : List Reading) : List (Key × List (String × ℚ)) :=
  data.foldl group_step []

/-- The loop body of the first loop of `compute_delta_ct`: collect the samples
of a housekeeping-gene entry into the housekeeping index. -/
def hk_step (housekeeping_gene : String) (housekeeping : List (Key × ℚ))
    (entry : Key × List (String × ℚ)) : List (Key × ℚ) :=
  if entry.1.2 = housekeeping_gene then
    entry.2.foldl (fun hk sv => insertA hk (entry.1.1, sv.1) sv.2) housekeeping
  else housekeeping

/-- The first loop of `compute_delta_ct`: housekeeping Ct per
`(condition, sample_id)`, collected from the groups whose gene is the
housekeeping gene. -/
def hk_index (grouped : List (Key × List (String × ℚ))) (housekeeping_gene : String) :
    List (Key × ℚ) :=
  grouped.foldl (hk_step housekeeping_gene) []

/-- The inner sample loop of `compute_delta_ct`: starting from `[]`, append
`ct - hk_ct` for each sample whose `(condition, sample_id)` is in the
housekeeping index, and silently skip the others. -/
def delta_list (housekeeping : List (Key × ℚ)) (cond : String)
    (samples : List (String × ℚ)) : List ℚ :=
  samples.foldl
    (fun acc sv =>
      match lookup housekeeping (cond, sv.1) with
      | none => acc
      | some hk_ct => acc ++ [sv.2 - hk_ct])
    []

/-- The loop body of the second loop of `compute_delta_ct`: skip a
housekeeping-gene entry, otherwise bind the entry's key to its ΔCt list. -/
def delta_step (housekeeping : List (Key × ℚ)) (housekeeping_gene : String)
    (delta_ct : List (Key × List ℚ)) (entry : Key × List (String × ℚ)) :
    List (Key × List ℚ) :=
  if entry.1.2 = housekeeping_gene then delta_ct
  else insertA delta_ct entry.1 (delta_list housekeeping entry.1.1 entry.2)

/-- `compute_delta_ct`: ΔCt lists per non-housekeeping `(condition, gene)` key.
The housekeeping gene's own keys are skipped; every other key is bound
(possibly to `[]`) before its sample loop runs. -/
def compute_delta_ct (grouped : List (Key × List (String × ℚ)))
    (housekeeping_gene : String) : List (Key × List ℚ) :=
  grouped.foldl (delta_step (hk_index grouped housekeeping_gene) housekeeping_gene) []

/-- The loop body of `average_delta_ct`: skip an empty ΔCt list, otherwise
bind the key to the list's arithmetic mean. -/
def average_step (mean_delta_ct : List (Key × ℚ)) (entry : Key × List ℚ) :
    List (Key × ℚ) :=
  if entry.2.length = 0 then mean_delta_ct
  else insertA mean_delta_ct entry.1 (entry.2.sum / (entry.2.length : ℚ))

/-- `average_delta_ct`: arithmetic mean of each non-empty ΔCt list; keys with
an empty list are skipped. -/
def average_delta_ct (delta_ct_dict : List (Key × List ℚ)) : List (Key × ℚ) :=
  delta_ct_dict.foldl average_step []

/-- The inner loop body of `compute_ddct`: for a key of the current gene,
bind it to its mean minus the control mean (the lookup of an iterated key
cannot fail on a dict; the impossible branch leaves the map unchanged). -/
def ddct_inner_step (mean_delta_ct : List (Key × ℚ)) (gene : String) (control_dct : ℚ)
    (ddct : List (Key × ℚ)) (p : Key × ℚ) : List (Key × ℚ) :=
  if p.1.2 = gene then
    match lookup mean_delta_ct p.1 with
    | some dct => insertA ddct p.1 (dct - control_dct)
    | none => ddct
  else ddct

/-- The outer loop body of `compute_ddct`: skip a gene with no
control-condition mean, otherwise emit every condition's comparison. -/
def ddct_gene_step (mean_delta_ct : List (Key × ℚ)) (control_condition : String)
    (ddct : List (Key × ℚ)) (gene : String) : List (Key × ℚ) :=
  match lookup mean_delta_ct (control_condition, gene) with
  | none => ddct
  | some control_dct =>
    mean_delta_ct.foldl (ddct_inner_step mean_delta_ct gene control_dct) ddct

/-- `compute_ddct`: for each distinct gene that has a control-condition mean,
subtract that control mean from every condition's mean of the gene.  A gene
with no `(control_condition, gene)` entry is skipped entirely. -/
def compute_ddct (mean_delta_ct : List (Key × ℚ)) (control_condition : String) :
    List (Key × ℚ) :=
  ((mean_delta_ct.map (fun p => p.1.2)).dedup).foldl
    (ddct_gene_step mean_delta_ct control_condition) []

/-- The loop body of `compute_fold_change`. -/
noncomputable def fold_step (fold_change : List (Key × ℝ)) (p : Key × ℚ) :
    List (Key × ℝ) :=
  insertA fold_change p.1 ((2 : ℝ) ^ (-(p.2 : ℝ)))

/-- `compute_fold_change`: map each ΔΔCt value `v` to `2 ** (-v)`. -/
noncomputable def compute_fold_change (ddct_dict : List (Key × ℚ)) : List (Key × ℝ) :=
  ddct_dict.foldl fold_step []

/-- The Ct of the last reading in input order matching a given
`(condition, gene, sample_id)` triple (a specification-side helper used to
state last-write-wins). -/
def lastCt (data : List Reading) (k : Key) (sid : String) : Option ℚ :=
  (data.reverse.find? fun r =>
    decide (r.condition = k.1 ∧ r.gene = k.2 ∧ r.sample_id = sid)).map Reading.ct

/-- The concrete scenario of the specification: four readings, housekeeping
gene GAPDH, control condition "control". -/
def c1_readings : List Reading :=
  [⟨"control", "GAPDH", "s1", 20⟩, ⟨"control", "Bax", "s1", 25⟩,
   ⟨"treated", "GAPDH", "s1", 20.5⟩, ⟨"treated", "Bax", "s1", 24⟩]

/-! ### Basic lemmas about `lookup` and `insertA` -/

theorem lookup_insertA {α β : Type} [DecidableEq α] (m : List (α × β)) (k k' : α) (v : β) :
    lookup (insertA m k v) k' = if k = k' then some v else lookup m k' := by
  induction m with
  | nil =>
    simp only [insertA, lookup]
  | cons p rest ih =>
    simp only [insertA]
    by_cases hp : p.1 = k
    · rw [if_pos hp]
      by_cases hk : k = k'
      · simp [lookup, hk]
      · have hpk : ¬ p.1 = k' := fun h => hk (hp.symm.trans h)
        simp [lookup, hk, hpk]
    · rw [if_neg hp]
      by_cases hq : p.1 = k'
      · have hk : ¬ k = k' := fun h => hp (hq.trans h.symm)
        simp [lookup, hq, hk]
      · simp [lookup, hq, ih]

theorem lookup_isSome_iff {α β : Type} [DecidableEq α] (m : List (α × β)) (k : α) :
    (lookup m k).isSome = true ↔ k ∈ m.map Prod.fst := by
  induction m with
  | nil => simp [lookup]
  | cons p rest ih =>
    simp only [lookup, List.map_cons, List.mem_cons]
    by_cases hp : p.1 = k
    · rw [if_pos hp]
      exact iff_of_true rfl (Or.inl hp.symm)
    · have hk : ¬ k = p.1 := fun h => hp h.symm
      simp [hp, hk, ih]

theorem lookup_eq_none_iff {α β : Type} [DecidableEq α] (m : List (α × β)) (k : α) :
    lookup m k = none ↔ k ∉ m.map Prod.fst := by
  rw [← lookup_isSome_iff]
  cases lookup m k <;> simp

theorem mem_keys_insertA {α β : Type} [DecidableEq α] (m : List (α × β)) (k k' : α) (v : β) :
    k' ∈ (insertA m k v).map Prod.fst ↔ k' = k ∨ k' ∈ m.map Prod.fst := by
  rw [← lookup_isSome_iff, lookup_insertA]
  by_cases h : k = k'
  · simp [h]
  · rw [if_neg h, lookup_isSome_iff]
    have hk : ¬ k' = k := fun hh => h hh.symm
    simp [hk]

theorem nodupKeys_insertA {α β : Type} [DecidableEq α] (m : List (α × β)) (k : α) (v : β)
    (h : NodupKeys m) : NodupKeys (insertA m k v) := by
  induction m with
  | nil => simp [insertA, NodupKeys]
  | cons p rest ih =>
    simp only [NodupKeys, List.map_cons, List.nodup_cons] at h
    obtain ⟨hp, hrest⟩ := h
    by_cases hpk : p.1 = k
    · simp only [insertA, if_pos hpk, NodupKeys, List.map_cons, List.nodup_cons]
      exact ⟨hpk ▸ hp, hrest⟩
    · have h1 := ih hrest
      simp only [insertA, if_neg hpk, NodupKeys, List.map_cons, List.nodup_cons]
      refine ⟨?_, h1⟩
      rw [mem_keys_insertA]
      rintro (h2 | h2)
      · exact hpk h2
      · exact hp h2

/-! ### The grouping stage -/

theorem sampleLookup_group_step (acc : List (Key × List (String × ℚ))) (r : Reading)
    (k : Key) (sid : String) :
    (lookup (group_step acc r) k).bind (fun sm => lookup sm sid)
      = if r.condition = k.1 ∧ r.gene = k.2 ∧ r.sample_id = sid then some r.ct
        else (lookup acc k).bind (fun sm => lookup sm sid) := by
  have hbase : lookup ((lookup acc k).getD []) sid
      = (lookup acc k).bind (fun sm => lookup sm sid) := by
    cases lookup acc k <;> simp [lookup]
  by_cases hkey : (r.condition, r.gene) = k
  · have hc : r.condition = k.1 := by rw [← hkey]
    have hg : r.gene = k.2 := by rw [← hkey]
    simp only [group_step, lookup_insertA]
    rw [if_pos hkey]
    simp only [Option.some_bind]
    rw [lookup_insertA]
    by_cases hs : r.sample_id = sid
    · simp [hc, hg, hs]
    · have : ¬ (r.condition = k.1 ∧ r.gene = k.2 ∧ r.sample_id = sid) := by
        rintro ⟨-, -, h3⟩; exact hs h3
      rw [if_neg hs, if_neg this, hkey]
      exact hbase
  · simp only [group_step, lookup_insertA, if_neg hkey]
    have : ¬ (r.condition = k.1 ∧ r.gene = k.2 ∧ r.sample_id = sid) := by
      rintro ⟨h1, h2, -⟩
      exact hkey (Prod.ext h1 h2)
    rw [if_neg this]

theorem sampleLookup_foldl_group (data : List Reading) :
    ∀ (acc : List (Key × List (String × ℚ))) (k : Key) (sid : String),
    (lookup (data.foldl group_step acc) k).bind (fun sm => lookup sm sid)
      = match data.reverse.find? (fun r =>
          decide (r.condition = k.1 ∧ r.gene = k.2 ∧ r.sample_id = sid)) with
        | some r => some r.ct
        | none => (lookup acc k).bind (fun sm => lookup sm sid) := by
  induction data with
  | nil => intro acc k sid; simp
  | cons r rest ih =>
    intro acc k sid
    simp only [List.foldl_cons, List.reverse_cons, List.find?_append]
    rw [ih]
    cases hfind : rest.reverse.find? (fun r =>
        decide (r.condition = k.1 ∧ r.gene = k.2 ∧ r.sample_id = sid)) with
    | some r' => simp
    | none =>
      simp only [Option.orElse_none, Option.none_orElse]
      rw [sampleLookup_group_step]
      by_cases hr : r.condition = k.1 ∧ r.gene = k.2 ∧ r.sample_id = sid
      · simp [List.find?, hr]
      · simp [List.find?, hr]

theorem lookup_group_step_isSome (acc : List (Key × List (String × ℚ))) (r : Reading)
    (k : Key) :
    (lookup (group_step acc r) k).isSome = true
      ↔ (r.condition = k.1 ∧ r.gene = k.2) ∨ (lookup acc k).isSome = true := by
  simp only [group_step, lookup_insertA]
  by_cases hkey : (r.condition, r.gene) = k
  · have hc : r.condition = k.1 := by rw [← hkey]
    have hg : r.gene = k.2 := by rw [← hkey]
    simp [hkey, hc, hg]
  · have : ¬ (r.condition = k.1 ∧ r.gene = k.2) := by
      rintro ⟨h1, h2⟩
      exact hkey (Prod.ext h1 h2)
    simp [hkey, this]

theorem lookup_foldl_group_isSome (data : List Reading) :
    ∀ (acc : List (Key × List (String × ℚ))) (k : Key),
    (lookup (data.foldl group_step acc) k).isSome = true
      ↔ (∃ r ∈ data, r.condition = k.1 ∧ r.gene = k.2)
        ∨ (lookup acc k).isSome = true := by
  induction data with
  | nil => intro acc k; simp
  | cons r rest ih =>
    intro acc k
    simp only [List.foldl_cons, List.mem_cons]
    rw [ih, lookup_group_step_isSome]
    constructor
    · rintro (⟨r', hr', h⟩ | h | h)
      · exact Or.inl ⟨r', Or.inr hr', h⟩
      · exact Or.inl ⟨r, Or.inl rfl, h⟩
      · exact Or.inr h
    · rintro (⟨r', hr' | hr', h⟩ | h)
      · exact Or.inr (Or.inl (hr' ▸ h))
      · exact Or.inl ⟨r', hr', h⟩
      · exact Or.inr (Or.inr h)

/-! ### The ΔCt stage -/

theorem delta_list_eq_filterMap (housekeeping : List (Key × ℚ)) (cond : String)
    (samples : List (String × ℚ)) :
    delta_list housekeeping cond samples
      = samples.filterMap
          (fun sv => (lookup housekeeping (cond, sv.1)).map (fun h => sv.2 - h)) := by
  have main : ∀ (ss : List (String × ℚ)) (acc : List ℚ),
      ss.foldl
        (fun acc sv =>
          match lookup housekeeping (cond, sv.1) with
          | none => acc
          | some hk_ct => acc ++ [sv.2 - hk_ct])
        acc
      = acc ++ ss.filterMap
          (fun sv => (lookup housekeeping (cond, sv.1)).map (fun h => sv.2 - h)) := by
    intro ss
    induction ss with
    | nil => intro acc; simp
    | cons sv rest ih =>
      intro acc
      simp only [List.foldl_cons, List.filterMap_cons]
      cases hl : lookup housekeeping (cond, sv.1) with
      | none => simp [hl, ih]
      | some hkct => simp [hl, ih]
  simpa using main samples []

theorem length_filterMap_delta (housekeeping : List (Key × ℚ)) (cond : String)
    (samples : List (String × ℚ)) :
    (samples.filterMap
      (fun sv => (lookup housekeeping (cond, sv.1)).map (fun h => sv.2 - h))).length
      = (samples.filter (fun sv => (lookup housekeeping (cond, sv.1)).isSome)).length := by
  induction samples with
  | nil => rfl
  | cons sv rest ih =>
    simp only [List.filterMap_cons, List.filter_cons]
    cases hl : lookup housekeeping (cond, sv.1) with
    | none => simpa [hl] using ih
    | some hkct => simp [hl, ih]

theorem lookup_delta_step_ne (housekeeping : List (Key × ℚ)) (hkg : String)
    (acc : List (Key × List ℚ)) (p : Key × List (String × ℚ)) (k : Key)
    (h : ¬ p.1 = k) :
    lookup (delta_step housekeeping hkg acc p) k = lookup acc k := by
  simp only [delta_step]
  by_cases hg : p.1.2 = hkg
  · rw [if_pos hg]
  · rw [if_neg hg, lookup_insertA, if_neg h]

theorem lookup_foldl_delta (housekeeping : List (Key × ℚ)) (hkg : String) :
    ∀ (grouped : List (Key × List (String × ℚ))) (acc : List (Key × List ℚ)) (k : Key),
    NodupKeys grouped →
    lookup (grouped.foldl (delta_step housekeeping hkg) acc) k
      = match lookup grouped k with
        | some samples =>
          if k.2 = hkg then lookup acc k
          else some (delta_list housekeeping k.1 samples)
        | none => lookup acc k := by
  intro grouped
  induction grouped with
  | nil => intro acc k _; simp [lookup]
  | cons p rest ih =>
    intro acc k hnd
    simp only [NodupKeys, List.map_cons, List.nodup_cons] at hnd
    obtain ⟨hp, hnd'⟩ := hnd
    simp only [List.foldl_cons]
    rw [ih (delta_step housekeeping hkg acc p) k hnd']
    by_cases hk : p.1 = k
    · have hnone : lookup rest k = none := (lookup_eq_none_iff rest k).mpr (hk ▸ hp)
      simp only [hnone, lookup, if_pos hk]
      simp only [delta_step]
      by_cases hg : k.2 = hkg
      · rw [if_pos (hk ▸ hg : p.1.2 = hkg), if_pos hg]
      · rw [if_neg (hk ▸ hg : ¬ p.1.2 = hkg), if_neg hg, lookup_insertA, if_pos hk, hk]
    · have hacc : lookup (delta_step housekeeping hkg acc p) k = lookup acc k :=
        lookup_delta_step_ne housekeeping hkg acc p k hk
      simp only [hacc, lookup, if_neg hk]

theorem lookup_compute_delta_ct (grouped : List (Key × List (String × ℚ)))
    (hkg : String) (hnd : NodupKeys grouped) (k : Key) :
    lookup (compute_delta_ct grouped hkg) k
      = match lookup grouped k with
        | some samples =>
          if k.2 = hkg then none
          else some (delta_list (hk_index grouped hkg) k.1 samples)
        | none => none := by
  simp only [compute_delta_ct]
  rw [lookup_foldl_delta (hk_index grouped hkg) hkg grouped [] k hnd]
  cases lookup grouped k <;> simp [lookup]

theorem hk_index_eq_nil (grouped : List (Key × List (String × ℚ))) (hkg : String)
    (h : ∀ p ∈ grouped, ¬ p.1.2 = hkg) : hk_index grouped hkg = [] := by
  have main : ∀ (g : List (Key × List (String × ℚ))) (acc : List (Key × ℚ)),
      (∀ p ∈ g, ¬ p.1.2 = hkg) → g.foldl (hk_step hkg) acc = acc := by
    intro g
    induction g with
    | nil => intro acc _; rfl
    | cons p rest ih =>
      intro acc hg
      simp only [List.foldl_cons, hk_step, if_neg (hg p (List.mem_cons_self p rest))]
      exact ih acc fun q hq => hg q (List.mem_cons_of_mem p hq)
  exact main grouped [] h

theorem delta_list_nil_hk (cond : String) (samples : List (String × ℚ)) :
    delta_list [] cond samples = [] := by
  rw [delta_list_eq_filterMap]
  simp [lookup]

theorem insertA_eq_append {α β : Type} [DecidableEq α] (m : List (α × β)) (k : α) (v : β)
    (h : k ∉ m.map Prod.fst) : insertA m k v = m ++ [(k, v)] := by
  induction m with
  | nil => rfl
  | cons q rest ih =>
    simp only [List.map_cons, List.mem_cons] at h
    push_neg at h
    obtain ⟨h1, h2⟩ := h
    have hq : ¬ q.1 = k := fun hh => h1 hh.symm
    simp only [insertA, if_neg hq, List.cons_append]
    rw [ih h2]

theorem foldl_delta_empty_hk (hkg : String) :
    ∀ (grouped : List (Key × List (String × ℚ))) (acc : List (Key × List ℚ)),
    (∀ p ∈ grouped, ¬ p.1.2 = hkg) →
    (∀ p ∈ grouped, p.1 ∉ acc.map Prod.fst) →
    NodupKeys grouped →
    grouped.foldl (delta_step [] hkg) acc
      = acc ++ grouped.map (fun p => (p.1, ([] : List ℚ))) := by
  intro grouped
  induction grouped with
  | nil => intro acc _ _ _; simp
  | cons p rest ih =>
    intro acc hg hacc hnd
    simp only [NodupKeys, List.map_cons, List.nodup_cons] at hnd
    obtain ⟨hp, hnd'⟩ := hnd
    have hstep : delta_step [] hkg acc p = acc ++ [(p.1, ([] : List ℚ))] := by
      simp only [delta_step, if_neg (hg p (List.mem_cons_self p rest)), delta_list_nil_hk]
      exact insertA_eq_append acc p.1 [] (hacc p (List.mem_cons_self p rest))
    simp only [List.foldl_cons, hstep]
    rw [ih (acc ++ [(p.1, [])])
      (fun q hq => hg q (List.mem_cons_of_mem p hq))
      (fun q hq => by
        simp only [List.map_append, List.mem_append, List.map_cons, List.map_nil,
          List.mem_singleton]
        rintro (h1 | h1)
        · exact hacc q (List.mem_cons_of_mem p hq) h1
        · exact hp (h1 ▸ List.mem_map.mpr ⟨q, hq, rfl⟩))
      hnd']
    simp

/-! ### The averaging stage -/

theorem lookup_average_step_ne (acc : List (Key × ℚ)) (p : Key × List ℚ) (k : Key)
    (h : ¬ p.1 = k) : lookup (average_step acc p) k = lookup acc k := by
  simp only [average_step]
  by_cases hl : p.2.length = 0
  · rw [if_pos hl]
  · rw [if_neg hl, lookup_insertA, if_neg h]

theorem lookup_foldl_average :
    ∀ (d : List (Key × List ℚ)) (acc : List (Key × ℚ)) (k : Key), NodupKeys d →
    lookup (d.foldl average_step acc) k
      = match lookup d k with
        | some vs =>
          if vs.length = 0 then lookup acc k
          else some (vs.sum / (vs.length : ℚ))
        | none => lookup acc k := by
  intro d
  induction d with
  | nil => intro acc k _; simp [lookup]
  | cons p rest ih =>
    intro acc k hnd
    simp only [NodupKeys, List.map_cons, List.nodup_cons] at hnd
    obtain ⟨hp, hnd'⟩ := hnd
    simp only [List.foldl_cons]
    rw [ih (average_step acc p) k hnd']
    by_cases hk : p.1 = k
    · have hnone : lookup rest k = none := (lookup_eq_none_iff rest k).mpr (hk ▸ hp)
      simp only [hnone, lookup, if_pos hk]
      simp only [average_step]
      by_cases hl : p.2.length = 0
      · rw [if_pos hl, if_pos hl]
      · rw [if_neg hl, if_neg hl, lookup_insertA, if_pos hk]
    · have hacc : lookup (average_step acc p) k = lookup acc k :=
        lookup_average_step_ne acc p k hk
      simp only [hacc, lookup, if_neg hk]

theorem lookup_average_delta_ct (d : List (Key × List ℚ)) (hnd : NodupKeys d) (k : Key) :
    lookup (average_delta_ct d) k
      = match lookup d k with
        | some vs =>
          if vs.length = 0 then none else some (vs.sum / (vs.length : ℚ))
        | none => none := by
  simp only [average_delta_ct]
  rw [lookup_foldl_average d [] k hnd]
  cases lookup d k with
  | none => rfl
  | some vs =>
    by_cases hl : vs.length = 0
    · simp [hl, lookup]
    · simp [hl]

/-! ### The ΔΔCt stage -/

theorem lookup_ddct_inner_step_ne (mdc : List (Key × ℚ)) (gene : String) (cd : ℚ)
    (ddct : List (Key × ℚ)) (p : Key × ℚ) (k : Key) (h : ¬ p.1 = k) :
    lookup (ddct_inner_step mdc gene cd ddct p) k = lookup ddct k := by
  simp only [ddct_inner_step]
  by_cases hg : p.1.2 = gene
  · rw [if_pos hg]
    cases lookup mdc p.1 with
    | none => rfl
    | some dct => rw [lookup_insertA, if_neg h]
  · rw [if_neg hg]

theorem lookup_foldl_ddct_inner (mdc : List (Key × ℚ)) (gene : String) (cd : ℚ) :
    ∀ (entries : List (Key × ℚ)) (acc : List (Key × ℚ)) (k : Key),
    lookup (entries.foldl (ddct_inner_step mdc gene cd) acc) k
      = if k.2 = gene ∧ k ∈ entries.map Prod.fst ∧ (lookup mdc k).isSome = true
        then (lookup mdc k).map (fun d => d - cd)
        else lookup acc k := by
  intro entries
  induction entries with
  | nil => intro acc k; simp
  | cons p rest ih =>
    intro acc k
    simp only [List.foldl_cons, List.map_cons, List.mem_cons]
    rw [ih (ddct_inner_step mdc gene cd acc p) k]
    by_cases hrest : k.2 = gene ∧ k ∈ rest.map Prod.fst ∧ (lookup mdc k).isSome = true
    · rw [if_pos hrest, if_pos ⟨hrest.1, Or.inr hrest.2.1, hrest.2.2⟩]
    · rw [if_neg hrest]
      by_cases hk : p.1 = k
      · subst hk
        simp only [ddct_inner_step]
        by_cases hg : p.1.2 = gene
        · rw [if_pos hg]
          cases hm : lookup mdc p.1 with
          | none => simp
          | some d => simp [lookup_insertA, hg]
        · rw [if_neg hg, if_neg (by rintro ⟨h, -, -⟩; exact hg h)]
      · rw [lookup_ddct_inner_step_ne mdc gene cd acc p k hk]
        rw [if_neg (by
          rintro ⟨h1, h2 | h2, h3⟩
          · exact hk h2.symm
          · exact hrest ⟨h1, h2, h3⟩)]

theorem lookup_ddct_gene_step_ne (mdc : List (Key × ℚ)) (control : String)
    (acc : List (Key × ℚ)) (g : String) (k : Key) (h : ¬ k.2 = g) :
    lookup (ddct_gene_step mdc control acc g) k = lookup acc k := by
  simp only [ddct_gene_step]
  cases hc : lookup mdc (control, g) with
  | none => rfl
  | some cd =>
    rw [lookup_foldl_ddct_inner, if_neg (by rintro ⟨h1, -, -⟩; exact h h1)]

theorem lookup_foldl_ddct_genes (mdc : List (Key × ℚ)) (control : String) :
    ∀ (genes : List String) (acc : List (Key × ℚ)) (k : Key),
    lookup (genes.foldl (ddct_gene_step mdc control) acc) k
      = if k.2 ∈ genes ∧ (lookup mdc (control, k.2)).isSome = true
            ∧ (lookup mdc k).isSome = true
        then (lookup mdc k).bind
          (fun d => (lookup mdc (control, k.2)).map (fun cd => d - cd))
        else lookup acc k := by
  intro genes
  induction genes with
  | nil => intro acc k; simp
  | cons g rest ih =>
    intro acc k
    simp only [List.foldl_cons, List.mem_cons]
    rw [ih (ddct_gene_step mdc control acc g) k]
    by_cases hrest : k.2 ∈ rest ∧ (lookup mdc (control, k.2)).isSome = true
        ∧ (lookup mdc k).isSome = true
    · rw [if_pos hrest, if_pos ⟨Or.inr hrest.1, hrest.2.1, hrest.2.2⟩]
    · rw [if_neg hrest]
      by_cases hg : k.2 = g
      · simp only [ddct_gene_step]
        cases hc : lookup mdc (control, g) with
        | none =>
          rw [if_neg (by
            rintro ⟨-, h, -⟩
            rw [hg, hc] at h
            simp at h)]
        | some cd =>
          rw [lookup_foldl_ddct_inner]
          have hc2 : lookup mdc (control, k.2) = some cd := by rw [hg]; exact hc
          by_cases hks : (lookup mdc k).isSome = true
          · have hkm : k ∈ mdc.map Prod.fst := (lookup_isSome_iff mdc k).mp hks
            obtain ⟨d, hd⟩ := Option.isSome_iff_exists.mp hks
            rw [if_pos ⟨hg, hkm, hks⟩, if_pos ⟨Or.inl hg, by rw [hc2]; rfl, hks⟩]
            rw [hd, hc2]
            rfl
          · rw [if_neg (by rintro ⟨-, -, h⟩; exact hks h),
              if_neg (by rintro ⟨-, -, h⟩; exact hks h)]
      · rw [lookup_ddct_gene_step_ne mdc control acc g k hg]
        rw [if_neg (by
          rintro ⟨h1 | h1, h2, h3⟩
          · exact hg h1
          · exact hrest ⟨h1, h2, h3⟩)]

theorem lookup_compute_ddct (mdc : List (Key × ℚ)) (control : String) (k : Key) :
    lookup (compute_ddct mdc control) k
      = (lookup mdc k).bind
          (fun d => (lookup mdc (control, k.2)).map (fun cd => d - cd)) := by
  simp only [compute_ddct]
  rw [lookup_foldl_ddct_genes]
  by_cases hks : (lookup mdc k).isSome = true
  · obtain ⟨d, hd⟩ := Option.isSome_iff_exists.mp hks
    have hkm : k ∈ mdc.map Prod.fst := (lookup_isSome_iff mdc k).mp hks
    have hgm : k.2 ∈ (mdc.map (fun p => p.1.2)).dedup := by
      rw [List.mem_dedup]
      obtain ⟨p, hp, hpk⟩ := List.mem_map.mp hkm
      exact List.mem_map.mpr ⟨p, hp, by rw [hpk]⟩
    by_cases hcs : (lookup mdc (control, k.2)).isSome = true
    · rw [if_pos ⟨hgm, hcs, hks⟩]
    · have hcn : lookup mdc (control, k.2) = none :=
        Option.not_isSome_iff_eq_none.mp hcs
      rw [if_neg (by rintro ⟨-, h, -⟩; exact hcs h)]
      rw [hd, hcn]
      rfl
  · have hkn : lookup mdc k = none := Option.not_isSome_iff_eq_none.mp hks
    rw [if_neg (by rintro ⟨-, -, h⟩; exact hks h), hkn]
    rfl

theorem nodupKeys_foldl_ddct_inner (mdc : List (Key × ℚ)) (gene : String) (cd : ℚ) :
    ∀ (entries : List (Key × ℚ)) (acc : List (Key × ℚ)), NodupKeys acc →
    NodupKeys (entries.foldl (ddct_inner_step mdc gene cd) acc) := by
  intro entries
  induction entries with
  | nil => intro acc h; exact h
  | cons p rest ih =>
    intro acc h
    simp only [List.foldl_cons]
    refine ih (ddct_inner_step mdc gene cd acc p) ?_
    simp only [ddct_inner_step]
    by_cases hg : p.1.2 = gene
    · rw [if_pos hg]
      cases lookup mdc p.1 with
      | none => exact h
      | some dct => exact nodupKeys_insertA acc p.1 (dct - cd) h
    · rw [if_neg hg]; exact h

theorem nodupKeys_foldl_ddct_genes (mdc : List (Key × ℚ)) (control : String) :
    ∀ (genes : List String) (acc : List (Key × ℚ)), NodupKeys acc →
    NodupKeys (genes.foldl (ddct_gene_step mdc control) acc) := by
  intro genes
  induction genes with
  | nil => intro acc h; exact h
  | cons g rest ih =>
    intro acc h
    simp only [List.foldl_cons]
    refine ih (ddct_gene_step mdc control acc g) ?_
    simp only [ddct_gene_step]
    cases lookup mdc (control, g) with
    | none => exact h
    | some cd => exact nodupKeys_foldl_ddct_inner mdc g cd mdc acc h

theorem nodupKeys_compute_ddct (mdc : List (Key × ℚ)) (control : String) :
    NodupKeys (compute_ddct mdc control) := by
  exact nodupKeys_foldl_ddct_genes mdc control _ [] (by simp [NodupKeys])

/-! ### The fold-change stage -/

theorem lookup_foldl_fold :
    ∀ (d : List (Key × ℚ)) (acc : List (Key × ℝ)) (k : Key), NodupKeys d →
    lookup (d.foldl fold_step acc) k
      = match lookup d k with
        | some v => some ((2 : ℝ) ^ (-(v : ℝ)))
        | none => lookup acc k := by
  intro d
  induction d with
  | nil => intro acc k _; simp [lookup]
  | cons p rest ih =>
    intro acc k hnd
    simp only [NodupKeys, List.map_cons, List.nodup_cons] at hnd
    obtain ⟨hp, hnd'⟩ := hnd
    simp only [List.foldl_cons]
    rw [ih (fold_step acc p) k hnd']
    by_cases hk : p.1 = k
    · have hnone : lookup rest k = none := (lookup_eq_none_iff rest k).mpr (hk ▸ hp)
      simp only [hnone, lookup, if_pos hk]
      simp only [fold_step]
      rw [lookup_insertA, if_pos hk]
    · have hacc : lookup (fold_step acc p) k = lookup acc k := by
        simp only [fold_step]
        rw [lookup_insertA, if_neg hk]
      simp only [hacc, lookup, if_neg hk]

theorem lookup_compute_fold_change (d : List (Key × ℚ)) (hnd : NodupKeys d) (k : Key) :
    lookup (compute_fold_change d) k
      = (lookup d k).map (fun v => (2 : ℝ) ^ (-(v : ℝ))) := by
  simp only [compute_fold_change]
  rw [lookup_foldl_fold d [] k hnd]
  cases lookup d k <;> simp [lookup]

/-! ### Claim theorems -/

/-- C2: if a gene `g` has no `(control, g)` entry in the MeanDeltaCt mapping,
then `compute_ddct` (and hence `compute_fold_change`) contains no entry
`(c, g)` for any condition `c`. -/
theorem C2_missing_control_excludes_gene (mdc : List (Key × ℚ)) (control g : String)
    (h : lookup mdc (control, g) = none) (c : String) :
    lookup (compute_ddct mdc control) (c, g) = none
    ∧ lookup (compute_fold_change (compute_ddct mdc control)) (c, g) = none := by
  have h1 : lookup (compute_ddct mdc control) (c, g) = none := by
    rw [lookup_compute_ddct]
    cases hv : lookup mdc (c, g) with
    | none => rfl
    | some d => simp [h]
  refine ⟨h1, ?_⟩
  rw [lookup_compute_fold_change _ (nodupKeys_compute_ddct mdc control), h1]
  rfl

/-- Witness for C2 at a concrete MeanDeltaCt with a "treated" mean for gene
"Bax" but no "control" entry. -/
theorem C2_missing_control_excludes_gene_witness :
    lookup [((("treated" : String), ("Bax" : String)), (4 : ℚ))] ("control", "Bax") = none
    ∧ (lookup (compute_ddct [((("treated" : String), ("Bax" : String)), (4 : ℚ))] "control")
          ("treated", "Bax") = none
      ∧ lookup (compute_fold_change
          (compute_ddct [((("treated" : String), ("Bax" : String)), (4 : ℚ))] "control"))
          ("treated", "Bax") = none) :=
  ⟨by decide,
   C2_missing_control_excludes_gene [(("treated", "Bax"), (4 : ℚ))] "control" "Bax"
     (by decide) "treated"⟩

/-- C3 counterexample: with a grouped input whose only key is `("c", "G")` and
housekeeping gene "H" matching no key, `compute_delta_ct` does NOT return an
empty mapping — the key `("c", "G")` is present (bound to `[]`). -/
theorem C3_counterexample :
    (∀ p ∈ ([((("c" : String), ("G" : String)), [(("s1" : String), (20 : ℚ))])] :
        List (Key × List (String × ℚ))), ¬ p.1.2 = "H")
    ∧ compute_delta_ct [((("c" : String), ("G" : String)), [(("s1" : String), (20 : ℚ))])] "H"
        ≠ [] := by
  exact ⟨by decide, by decide⟩

/-- C3 (amended): if the housekeeping-gene name equals no gene component of
any GroupKey of the (duplicate-free) grouped input, `compute_delta_ct` maps
every key of the input to the empty ΔCt sequence — the keys all remain, each
bound to `[]` (so only the downstream averaged output is empty). -/
theorem C3_no_housekeeping_all_values_empty (grouped : List (Key × List (String × ℚ)))
    (hkg : String) (hnd : NodupKeys grouped) (h : ∀ p ∈ grouped, ¬ p.1.2 = hkg) :
    compute_delta_ct grouped hkg = grouped.map (fun p => (p.1, ([] : List ℚ))) := by
  simp only [compute_delta_ct, hk_index_eq_nil grouped hkg h]
  simpa using foldl_delta_empty_hk hkg grouped [] h (by simp) hnd

/-- Witness for the amended C3 at a concrete grouped input. -/
theorem C3_no_housekeeping_all_values_empty_witness :
    NodupKeys ([((("c" : String), ("G" : String)), [(("s1" : String), (20 : ℚ))])] :
        List (Key × List (String × ℚ)))
    ∧ (∀ p ∈ ([((("c" : String), ("G" : String)), [(("s1" : String), (20 : ℚ))])] :
        List (Key × List (String × ℚ))), ¬ p.1.2 = "H")
    ∧ compute_delta_ct [((("c" : String), ("G" : String)), [(("s1" : String), (20 : ℚ))])] "H"
        = List.map (fun p => (p.1, ([] : List ℚ)))
            [((("c" : String), ("G" : String)), [(("s1" : String), (20 : ℚ))])] :=
  ⟨by decide, by decide,
   C3_no_housekeeping_all_values_empty [(("c", "G"), [("s1", (20 : ℚ))])] "H"
     (by decide) (by decide)⟩

/-- C4: for a non-housekeeping key of a duplicate-free grouped input,
`compute_delta_ct` binds the key to exactly the sequence of `ct − hk_ct`
values of the samples whose `(condition, sample_id)` is in the housekeeping
index (in sample order, nothing for the others), so its length is the number
of samples with a matching housekeeping entry. -/
theorem C4_delta_ct_per_sample (grouped : List (Key × List (String × ℚ))) (hkg : String)
    (k : Key) (samples : List (String × ℚ)) (hnd : NodupKeys grouped)
    (hs : lookup grouped k = some samples) (hg : ¬ k.2 = hkg) :
    lookup (compute_delta_ct grouped hkg) k
      = some (samples.filterMap
          (fun sv => (lookup (hk_index grouped hkg) (k.1, sv.1)).map (fun h => sv.2 - h)))
    ∧ (samples.filterMap
          (fun sv => (lookup (hk_index grouped hkg) (k.1, sv.1)).map (fun h => sv.2 - h))).length
      = (samples.filter (fun sv => (lookup (hk_index grouped hkg) (k.1, sv.1)).isSome)).length := by
  constructor
  · rw [lookup_compute_delta_ct grouped hkg hnd k, hs, ← delta_list_eq_filterMap]
    exact if_neg hg
  · exact length_filterMap_delta (hk_index grouped hkg) k.1 samples

/-- Witness for C4: gene "G" has samples "s1" and "s3", the housekeeping gene
"H" covers only "s1", so the ΔCt list is `[25 − 20]` and has length 1. -/
theorem C4_delta_ct_per_sample_witness :
    NodupKeys ([((("c" : String), ("H" : String)), [(("s1" : String), (20 : ℚ))]),
        ((("c" : String), ("G" : String)),
          [(("s1" : String), (25 : ℚ)), (("s3" : String), (30 : ℚ))])] :
        List (Key × List (String × ℚ)))
    ∧ lookup [((("c" : String), ("H" : String)), [(("s1" : String), (20 : ℚ))]),
        ((("c" : String), ("G" : String)),
          [(("s1" : String), (25 : ℚ)), (("s3" : String), (30 : ℚ))])] ("c", "G")
        = some [("s1", (25 : ℚ)), ("s3", (30 : ℚ))]
    ∧ ¬ (("c", "G") : Key).2 = "H"
    ∧ (lookup (compute_delta_ct [((("c" : String), ("H" : String)), [(("s1" : String), (20 : ℚ))]),
          ((("c" : String), ("G" : String)),
            [(("s1" : String), (25 : ℚ)), (("s3" : String), (30 : ℚ))])] "H") ("c", "G")
        = some ([("s1", (25 : ℚ)), ("s3", (30 : ℚ))].filterMap
            (fun sv => (lookup (hk_index [((("c" : String), ("H" : String)),
                [(("s1" : String), (20 : ℚ))]),
                ((("c" : String), ("G" : String)),
                  [(("s1" : String), (25 : ℚ)), (("s3" : String), (30 : ℚ))])] "H")
                ((("c", "G") : Key).1, sv.1)).map (fun h => sv.2 - h)))
      ∧ ([("s1", (25 : ℚ)), ("s3", (30 : ℚ))].filterMap
            (fun sv => (lookup (hk_index [((("c" : String), ("H" : String)),
                [(("s1" : String), (20 : ℚ))]),
                ((("c" : String), ("G" : String)),
                  [(("s1" : String), (25 : ℚ)), (("s3" : String), (30 : ℚ))])] "H")
                ((("c", "G") : Key).1, sv.1)).map (fun h => sv.2 - h))).length
        = ([("s1", (25 : ℚ)), ("s3", (30 : ℚ))].filter
            (fun sv => (lookup (hk_index [((("c" : String), ("H" : String)),
                [(("s1" : String), (20 : ℚ))]),
                ((("c" : String), ("G" : String)),
                  [(("s1" : String), (25 : ℚ)), (("s3" : String), (30 : ℚ))])] "H")
                ((("c", "G") : Key).1, sv.1)).isSome)).length) :=
  ⟨by decide, by decide, by decide,
   C4_delta_ct_per_sample
     [(("c", "H"), [("s1", (20 : ℚ))]), (("c", "G"), [("s1", (25 : ℚ)), ("s3", (30 : ℚ))])]
     "H" ("c", "G") [("s1", (25 : ℚ)), ("s3", (30 : ℚ))] (by decide) (by decide) (by decide)⟩

/-- C5: `group_ct_values` has exactly the distinct `(condition, gene)` pairs
of the input as keys, and each key's SampleMap sends each sample id to the Ct
of the last matching reading in input order (last-write-wins). -/
theorem C5_grouping_last_write_wins (data : List Reading) (k : Key) (sid : String) :
    ((lookup (group_ct_values data) k).isSome = true
      ↔ ∃ r ∈ data, r.condition = k.1 ∧ r.gene = k.2)
    ∧ (lookup (group_ct_values data) k).bind (fun sm => lookup sm sid)
      = lastCt data k sid := by
  constructor
  · simp only [group_ct_values]
    rw [lookup_foldl_group_isSome data [] k]
    simp [lookup]
  · simp only [group_ct_values, lastCt]
    rw [sampleLookup_foldl_group data [] k sid]
    cases hf : data.reverse.find? (fun r =>
        decide (r.condition = k.1 ∧ r.gene = k.2 ∧ r.sample_id = sid)) with
    | none => simp [lookup]
    | some r => simp

/-- C6: `average_delta_ct` has an entry for a key exactly when the key's ΔCt
list is non-empty, and then the entry is the sum divided by the length; keys
with an empty list are wholly absent. -/
theorem C6_average_nonempty_only (d : List (Key × List ℚ)) (hnd : NodupKeys d) (k : Key) :
    ((lookup (average_delta_ct d) k).isSome = true
      ↔ ∃ vs, lookup d k = some vs ∧ vs ≠ [])
    ∧ ∀ vs, lookup d k = some vs → vs ≠ [] →
        lookup (average_delta_ct d) k = some (vs.sum / (vs.length : ℚ)) := by
  have h1 := lookup_average_delta_ct d hnd k
  constructor
  · rw [h1]
    cases hv : lookup d k with
    | none => simp
    | some vs =>
      by_cases hl : vs.length = 0
      · have he : vs = [] := List.length_eq_zero.mp hl
        subst he
        simp
      · have hne : vs ≠ [] := fun h => hl (by rw [h]; rfl)
        simp [if_neg hl, hne]
  · intro vs hv hne
    rw [h1, hv]
    have hl : ¬ vs.length = 0 := fun h => hne (List.length_eq_zero.mp h)
    exact if_neg hl

/-- Witness for C6 at a DeltaCtSet with one non-empty and one empty list. -/
theorem C6_average_nonempty_only_witness :
    NodupKeys ([((("c" : String), ("G" : String)), [(5 : ℚ)]),
        ((("c" : String), ("B" : String)), ([] : List ℚ))] : List (Key × List ℚ))
    ∧ (((lookup (average_delta_ct [((("c" : String), ("G" : String)), [(5 : ℚ)]),
          ((("c" : String), ("B" : String)), ([] : List ℚ))]) ("c", "G")).isSome = true
        ↔ ∃ vs, lookup [((("c" : String), ("G" : String)), [(5 : ℚ)]),
            ((("c" : String), ("B" : String)), ([] : List ℚ))] ("c", "G") = some vs ∧ vs ≠ [])
      ∧ ∀ vs, lookup [((("c" : String), ("G" : String)), [(5 : ℚ)]),
            ((("c" : String), ("B" : String)), ([] : List ℚ))] ("c", "G") = some vs → vs ≠ [] →
          lookup (average_delta_ct [((("c" : String), ("G" : String)), [(5 : ℚ)]),
            ((("c" : String), ("B" : String)), ([] : List ℚ))]) ("c", "G")
            = some (vs.sum / (vs.length : ℚ))) :=
  ⟨by decide,
   C6_average_nonempty_only
     [(("c", "G"), [(5 : ℚ)]), (("c", "B"), ([] : List ℚ))] (by decide) ("c", "G")⟩

/-- C7: for every gene with a control-condition mean, `compute_ddct` maps the
control key to exactly 0 and `compute_fold_change` maps it to exactly 1. -/
theorem C7_control_self_comparison (mdc : List (Key × ℚ)) (control g : String) (c : ℚ)
    (h : lookup mdc (control, g) = some c) :
    lookup (compute_ddct mdc control) (control, g) = some 0
    ∧ lookup (compute_fold_change (compute_ddct mdc control)) (control, g) = some 1 := by
  have h1 : lookup (compute_ddct mdc control) (control, g) = some 0 := by
    rw [lookup_compute_ddct]
    simp [h]
  refine ⟨h1, ?_⟩
  rw [lookup_compute_fold_change _ (nodupKeys_compute_ddct mdc control), h1]
  norm_num

/-- Witness for C7 at a one-entry MeanDeltaCt for the control condition. -/
theorem C7_control_self_comparison_witness :
    lookup [((("control" : String), ("Bax" : String)), (5 : ℚ))] ("control", "Bax")
        = some (5 : ℚ)
    ∧ (lookup (compute_ddct [((("control" : String), ("Bax" : String)), (5 : ℚ))] "control")
          ("control", "Bax") = some 0
      ∧ lookup (compute_fold_change
          (compute_ddct [((("control" : String), ("Bax" : String)), (5 : ℚ))] "control"))
          ("control", "Bax") = some 1) :=
  ⟨by decide,
   C7_control_self_comparison [(("control", "Bax"), (5 : ℚ))] "control" "Bax" 5 (by decide)⟩

/-- C8: `compute_fold_change` of a duplicate-free DeltaDeltaCt keeps exactly
the key set and replaces each value `v` by `2 ^ (−v)`; every present output
value is positive. -/
theorem C8_fold_change_map (d : List (Key × ℚ)) (hnd : NodupKeys d) (k : Key) :
    lookup (compute_fold_change d) k
        = (lookup d k).map (fun v => (2 : ℝ) ^ (-(v : ℝ)))
    ∧ ∀ r : ℝ, lookup (compute_fold_change d) k = some r → 0 < r := by
  have h1 := lookup_compute_fold_change d hnd k
  refine ⟨h1, ?_⟩
  intro r hr
  rw [h1] at hr
  cases hv : lookup d k with
  | none => rw [hv] at hr; simp at hr
  | some v =>
    rw [hv] at hr
    have hfr : (2 : ℝ) ^ (-(v : ℝ)) = r := Option.some.inj hr
    rw [← hfr]
    exact Real.rpow_pos_of_pos (by norm_num) _

/-- Witness for C8 at a one-entry DeltaDeltaCt. -/
theorem C8_fold_change_map_witness :
    NodupKeys ([((("t" : String), ("B" : String)), (-2 : ℚ))] : List (Key × ℚ))
    ∧ (lookup (compute_fold_change [((("t" : String), ("B" : String)), (-2 : ℚ))]) ("t", "B")
          = (lookup [((("t" : String), ("B" : String)), (-2 : ℚ))] ("t", "B")).map
              (fun v => (2 : ℝ) ^ (-(v : ℝ)))
      ∧ ∀ r : ℝ, lookup (compute_fold_change [((("t" : String), ("B" : String)), (-2 : ℚ))])
          ("t", "B") = some r → 0 < r) :=
  ⟨by decide, C8_fold_change_map [(("t", "B"), (-2 : ℚ))] (by decide) ("t", "B")⟩

/-- C9: the key set of `compute_delta_ct` on a duplicate-free grouped input is
exactly the input's keys whose gene is not the housekeeping gene. -/
theorem C9_delta_ct_key_set (grouped : List (Key × List (String × ℚ))) (hkg : String)
    (hnd : NodupKeys grouped) (k : Key) :
    (lookup (compute_delta_ct grouped hkg) k).isSome = true
      ↔ k ∈ grouped.map Prod.fst ∧ ¬ k.2 = hkg := by
  rw [lookup_compute_delta_ct grouped hkg hnd k]
  cases hv : lookup grouped k with
  | none =>
    have hm : k ∉ grouped.map Prod.fst := (lookup_eq_none_iff grouped k).mp hv
    simp [hm]
  | some samples =>
    have hm : k ∈ grouped.map Prod.fst :=
      (lookup_isSome_iff grouped k).mp (by rw [hv]; rfl)
    by_cases hg : k.2 = hkg
    · simp [hg, hm]
    · simp [hg, hm]

/-- Witness for C9: "H" keys are dropped, other keys stay even when a sample
has no housekeeping partner. -/
theorem C9_delta_ct_key_set_witness :
    NodupKeys ([((("c" : String), ("H" : String)), [(("s1" : String), (20 : ℚ))]),
        ((("c" : String), ("G" : String)), [(("s1" : String), (25 : ℚ))])] :
        List (Key × List (String × ℚ)))
    ∧ ((lookup (compute_delta_ct [((("c" : String), ("H" : String)), [(("s1" : String), (20 : ℚ))]),
          ((("c" : String), ("G" : String)), [(("s1" : String), (25 : ℚ))])] "H")
          ("c", "G")).isSome = true
        ↔ ("c", "G") ∈ ([((("c" : String), ("H" : String)), [(("s1" : String), (20 : ℚ))]),
            ((("c" : String), ("G" : String)), [(("s1" : String), (25 : ℚ))])] :
            List (Key × List (String × ℚ))).map Prod.fst ∧ ¬ (("c", "G") : Key).2 = "H") :=
  ⟨by decide,
   C9_delta_ct_key_set
     [(("c", "H"), [("s1", (20 : ℚ))]), (("c", "G"), [("s1", (25 : ℚ))])]
     "H" (by decide) ("c", "G")⟩

/-- C10: on the empty reading list every stage of the pipeline returns the
empty mapping, for every housekeeping gene and control condition. -/
theorem C10_empty_pipeline (hkg control : String) :
    group_ct_values [] = []
    ∧ compute_delta_ct (group_ct_values []) hkg = []
    ∧ average_delta_ct (compute_delta_ct (group_ct_values []) hkg) = []
    ∧ compute_ddct (average_delta_ct (compute_delta_ct (group_ct_values []) hkg)) control = []
    ∧ compute_fold_change (compute_ddct (average_delta_ct
        (compute_delta_ct (group_ct_values []) hkg)) control) = [] :=
  ⟨rfl, rfl, rfl, rfl, rfl⟩

/-- C1: the full pipeline on the specification's concrete scenario yields
mean ΔCt 5 and 3.5 for Bax, ΔΔCt 0 and −1.5, and fold change `2 ^ 1.5`. -/
theorem C1_concrete_scenario :
    lookup (average_delta_ct (compute_delta_ct (group_ct_values c1_readings) "GAPDH"))
        ("control", "Bax") = some 5
    ∧ lookup (average_delta_ct (compute_delta_ct (group_ct_values c1_readings) "GAPDH"))
        ("treated", "Bax") = some (3.5 : ℚ)
    ∧ lookup (compute_ddct (average_delta_ct (compute_delta_ct (group_ct_values c1_readings)
        "GAPDH")) "control") ("control", "Bax") = some 0
    ∧ lookup (compute_ddct (average_delta_ct (compute_delta_ct (group_ct_values c1_readings)
        "GAPDH")) "control") ("treated", "Bax") = some (-1.5 : ℚ)
    ∧ lookup (compute_fold_change (compute_ddct (average_delta_ct (compute_delta_ct
        (group_ct_values c1_readings) "GAPDH")) "control")) ("treated", "Bax")
        = some ((2 : ℝ) ^ (1.5 : ℝ)) := by
  have hmdc : average_delta_ct (compute_delta_ct (group_ct_values c1_readings) "GAPDH")
      = [(("control", "Bax"), 5), (("treated", "Bax"), (3.5 : ℚ))] := by
    simp +decide only [c1_readings, group_ct_values, group_step, compute_delta_ct, delta_step,
      hk_index, hk_step, delta_list, average_delta_ct, average_step, lookup, insertA,
      List.foldl, List.map]
    norm_num
  have hdd : compute_ddct (average_delta_ct (compute_delta_ct (group_ct_values c1_readings)
      "GAPDH")) "control" = [(("control", "Bax"), 0), (("treated", "Bax"), (-1.5 : ℚ))] := by
    rw [hmdc]
    simp +decide only [compute_ddct, ddct_gene_step, ddct_inner_step, lookup, insertA,
      List.foldl, List.map, List.dedup]
    norm_num
  refine ⟨?_, ?_, ?_, ?_, ?_⟩
  · rw [hmdc]; simp +decide [lookup]
  · rw [hmdc]; simp +decide [lookup]
  · rw [hdd]; simp +decide [lookup]
  · rw [hdd]; simp +decide [lookup]
  · rw [hdd, lookup_compute_fold_change
      [(("control", "Bax"), 0), (("treated", "Bax"), (-1.5 : ℚ))] (by decide) ("treated", "Bax")]
    have hl : lookup [((("control" : String), ("Bax" : String)), (0 : ℚ)),
        ((("treated" : String), ("Bax" : String)), (-1.5 : ℚ))] ("treated", "Bax")
        = some (-1.5 : ℚ) := by
      simp +decide [lookup]
    rw [hl]
    have he : (-((-1.5 : ℚ) : ℝ)) = (1.5 : ℝ) := by norm_num
    show some ((2 : ℝ) ^ (-((-1.5 : ℚ) : ℝ))) = some ((2 : ℝ) ^ (1.5 : ℝ))
    rw [he]

end QPCR
